import Mathlib

/-!
Verification of the bug-classifier repository (`classifier.py`).

The development shallowly embeds the two functions of the source,
`load_file_content` and `classify_bug_report`, together with models of the
Python library routines they call: `json.loads`, `json.dumps(indent=2)`,
`xml.etree.ElementTree.fromstring`, and the string methods `lower`,
`endswith`, `startswith`, `strip` and `capitalize` (ASCII fragment).
The file system read and the remote model call are passed in as explicit
functions; an exception raised by either is modelled as an `Except.error`.
JSON numbers are modelled as integers (float handling is outside the
embedding, the model parser rejects fraction/exponent forms rather than
misreading them), and Python strings are modelled as Lean strings (no lone
surrogates).
-/

set_option maxRecDepth 20000

namespace BugClassifier

/-- Python `str.lower` (ASCII case mapping). -/
def pyLower (s : String) : String := ⟨s.data.map Char.toLower⟩

/-- Python `str.startswith`. -/
def pyStartswith (s pre : String) : Bool := decide (pre.data <+: s.data)

/-- Python `str.endswith`. -/
def pyEndswith (s suf : String) : Bool := decide (suf.data <:+ s.data)

/-- ASCII whitespace characters removed by Python `str.strip`. -/
def pyIsSpace (c : Char) : Bool :=
  c = ' ' || c = '\t' || c = '\n' || c = '\r' || c = Char.ofNat 11 || c = Char.ofNat 12

/-- Python `str.strip` (ASCII whitespace). -/
def pyStrip (s : String) : String :=
  ⟨((s.data.dropWhile pyIsSpace).reverse.dropWhile pyIsSpace).reverse⟩

/-- Python `str.capitalize` (ASCII): first character upper-cased, the rest lower-cased. -/
def pyCapitalize (s : String) : String :=
  match s.data with
  | [] => ""
  | c :: cs => ⟨Char.toUpper c :: cs.map Char.toLower⟩

/-- The double-quote character. -/
def dq : Char := Char.ofNat 34

/-- The backslash character. -/
def bsl : Char := Char.ofNat 92

/-- The opening curly-brace character. -/
def lcu : Char := Char.ofNat 123

/-- The closing curly-brace character. -/
def rcu : Char := Char.ofNat 125

/-- JSON values as produced by Python `json.loads` (numbers restricted to integers). -/
inductive Json where
  | null
  | bool (b : Bool)
  | int (n : Int)
  | str (s : String)
  | arr (elems : List Json)
  | obj (members : List (String × Json))

mutual

/-- Well-formedness used for the serialisation round trip: object keys are distinct
(this is an invariant of every value `json.loads` produces, since a Python dict
holds each key once). -/
def wfJ : Json → Prop
  | .null => True
  | .bool _ => True
  | .int _ => True
  | .str _ => True
  | .arr xs => wfList xs
  | .obj kvs => (kvs.map Prod.fst).Nodup ∧ wfPairs kvs

/-- All elements of a list are well-formed. -/
def wfList : List Json → Prop
  | [] => True
  | x :: xs => wfJ x ∧ wfList xs

/-- All values of an association list are well-formed. -/
def wfPairs : List (String × Json) → Prop
  | [] => True
  | (_, v) :: t => wfJ v ∧ wfPairs t

end

/-- The character for a decimal digit. -/
def digitChar (d : Nat) : Char := Char.ofNat (48 + d)

/-- Decimal digit characters of a natural number, most significant first
(Python `int.__repr__` for non-negative values). -/
def natChars (m : Nat) : List Char :=
  if m = 0 then ['0'] else ((Nat.digits 10 m).reverse).map digitChar

/-- Python `repr` of an integer. -/
def intChars (n : Int) : List Char :=
  if n < 0 then '-' :: natChars n.natAbs else natChars n.natAbs

/-- Lower-case hexadecimal digit character, as used by `json.dumps` escapes. -/
def hexChar (d : Nat) : Char := if d < 10 then Char.ofNat (48 + d) else Char.ofNat (87 + d)

/-- Four lower-case hex digits (`'\\u%04x' % n` in CPython's encoder). -/
def hex4 (n : Nat) : List Char :=
  [hexChar (n / 4096 % 16), hexChar (n / 256 % 16), hexChar (n / 16 % 16), hexChar (n % 16)]

/-- Encoding of one character inside a JSON string literal, following CPython's
`json.encoder` with the default `ensure_ascii=True`: printable ASCII other than
quote and backslash is literal, the five named control escapes are used, all
other characters become `\uXXXX` (astral characters as a surrogate pair). -/
def encChar (c : Char) : List Char :=
  if c = dq then [bsl, dq]
  else if c = bsl then [bsl, bsl]
  else if 32 ≤ c.toNat ∧ c.toNat ≤ 126 then [c]
  else if c.toNat = 8 then [bsl, 'b']
  else if c.toNat = 9 then [bsl, 't']
  else if c.toNat = 10 then [bsl, 'n']
  else if c.toNat = 12 then [bsl, 'f']
  else if c.toNat = 13 then [bsl, 'r']
  else if c.toNat < 65536 then bsl :: 'u' :: hex4 c.toNat
  else bsl :: 'u' :: hex4 (55296 + (c.toNat - 65536) / 1024) ++
       bsl :: 'u' :: hex4 (56320 + (c.toNat - 65536) % 1024)

/-- Encoding of the body of a JSON string literal. -/
def encBody : List Char → List Char
  | [] => []
  | c :: cs => encChar c ++ encBody cs

/-- The indentation prefix at nesting level `lvl` for `json.dumps(..., indent=2)`. -/
def ind (lvl : Nat) : List Char := List.replicate (2 * lvl) ' '

/-- The characters of the literal `null`. -/
def nullChars : List Char := ['n', 'u', 'l', 'l']

/-- The characters of the literal `true`. -/
def trueChars : List Char := ['t', 'r', 'u', 'e']

/-- The characters of the literal `false`. -/
def falseChars : List Char := ['f', 'a', 'l', 's', 'e']

mutual

/-- `json.dumps(v, indent=2)` as a character list, at nesting level `lvl`. -/
def enc (lvl : Nat) : Json → List Char
  | .null => nullChars
  | .bool true => trueChars
  | .bool false => falseChars
  | .int n => intChars n
  | .str s => dq :: encBody s.data ++ [dq]
  | .arr [] => ['[', ']']
  | .arr (x :: xs) =>
      '[' :: '\n' :: (ind (lvl + 1) ++ enc (lvl + 1) x ++
        (encItems (lvl + 1) xs ++ '\n' :: (ind lvl ++ [']'])))
  | .obj [] => [lcu, rcu]
  | .obj ((k, v) :: kvs) =>
      lcu :: '\n' :: (ind (lvl + 1) ++ (dq :: encBody k.data ++ [dq, ':', ' ']) ++
        enc (lvl + 1) v ++ (encPairs (lvl + 1) kvs ++ '\n' :: (ind lvl ++ [rcu])))

/-- Encoding of the second and later array items (each preceded by `,\n` and indentation). -/
def encItems (lvl : Nat) : List Json → List Char
  | [] => []
  | x :: xs => ',' :: '\n' :: (ind lvl ++ enc lvl x ++ encItems lvl xs)

/-- Encoding of the second and later object members. -/
def encPairs (lvl : Nat) : List (String × Json) → List Char
  | [] => []
  | (k, v) :: kvs =>
      ',' :: '\n' :: (ind lvl ++ (dq :: encBody k.data ++ [dq, ':', ' ']) ++
        enc lvl v ++ encPairs lvl kvs)

end

mutual

/-- Fuel sufficient for the model parser to re-read a value. -/
def jsonFuel : Json → Nat
  | .null => 1
  | .bool _ => 1
  | .int _ => 1
  | .str _ => 1
  | .arr xs => 1 + listFuel xs
  | .obj kvs => 1 + pairsFuel kvs

/-- Fuel for a list of array items. -/
def listFuel : List Json → Nat
  | [] => 0
  | x :: xs => jsonFuel x + 1 + listFuel xs

/-- Fuel for a list of object members. -/
def pairsFuel : List (String × Json) → Nat
  | [] => 0
  | (_, v) :: kvs => jsonFuel v + 1 + pairsFuel kvs

end

/-- The whitespace class of Python's JSON scanner (` \t\n\r`). -/
def jsonWs (c : Char) : Bool := c = ' ' || c = '\t' || c = '\n' || c = '\r'

/-- Drop leading JSON whitespace. -/
def skipWs (l : List Char) : List Char := l.dropWhile jsonWs

/-- Decimal digit test. -/
def isDig (c : Char) : Bool := 48 ≤ c.toNat && c.toNat ≤ 57

/-- A list on which the scanner's greedy integer parse stops cleanly: empty, or
starting with a character that neither extends the digit run nor turns the
literal into a float. -/
def numStopB : List Char → Bool
  | [] => true
  | c :: _ => !(isDig c) && !(c = '.') && !(c = 'e') && !(c = 'E')

/-- Value of a hexadecimal digit character (either case). -/
def hexVal (c : Char) : Option Nat :=
  if 48 ≤ c.toNat ∧ c.toNat ≤ 57 then some (c.toNat - 48)
  else if 97 ≤ c.toNat ∧ c.toNat ≤ 102 then some (c.toNat - 87)
  else if 65 ≤ c.toNat ∧ c.toNat ≤ 70 then some (c.toNat - 55)
  else none

/-- Decoding of the single-character JSON escapes. -/
def simpleEsc (e : Char) : Option Char :=
  if e = dq then some dq
  else if e = bsl then some bsl
  else if e = '/' then some '/'
  else if e = 'b' then some (Char.ofNat 8)
  else if e = 'f' then some (Char.ofNat 12)
  else if e = 'n' then some '\n'
  else if e = 'r' then some '\r'
  else if e = 't' then some '\t'
  else none

/-- Read exactly four hexadecimal digits. -/
def pHex4 : List Char → Except String (Nat × List Char)
  | a :: b :: c :: d :: rest =>
    match hexVal a, hexVal b, hexVal c, hexVal d with
    | some ha, some hb, some hc, some hd => .ok (ha * 4096 + hb * 256 + hc * 16 + hd, rest)
    | _, _, _, _ => .error "Invalid hex escape"
  | _ => .error "Invalid hex escape"

/-- Decode one escape sequence (after the backslash): a single-character escape,
or `\uXXXX` with surrogate-pair combination. Lone surrogates (which Python would
keep as unpaired code units) are not representable in a Lean `Char`, so the
model rejects them. -/
def pEsc : List Char → Except String (Char × List Char)
  | [] => .error "Unterminated string"
  | e :: rest =>
    if e = 'u' then
      match pHex4 rest with
      | .ok (n, r2) =>
        if 55296 ≤ n ∧ n ≤ 56319 then
          match r2 with
          | b1 :: u1 :: r3 =>
            if b1 = bsl ∧ u1 = 'u' then
              match pHex4 r3 with
              | .ok (m2, r4) =>
                if 56320 ≤ m2 ∧ m2 ≤ 57343 then
                  .ok (Char.ofNat (65536 + (n - 55296) * 1024 + (m2 - 56320)), r4)
                else .error "Lone surrogate escape outside the model"
              | .error e2 => .error e2
            else .error "Lone surrogate escape outside the model"
          | _ => .error "Lone surrogate escape outside the model"
        else if 56320 ≤ n ∧ n ≤ 57343 then .error "Lone surrogate escape outside the model"
        else .ok (Char.ofNat n, r2)
      | .error e2 => .error e2
    else
      match simpleEsc e with
      | some ch => .ok (ch, rest)
      | none => .error "Invalid escape"

/-- Parse the body of a JSON string literal up to and including the closing
quote, following CPython's strict scanner: raw control characters are rejected,
escapes are decoded by `pEsc`. Fueled; every call site passes at least
`input.length + 1`, which always suffices since each step consumes at least one
character. -/
def pStrBody : Nat → List Char → Except String (List Char × List Char)
  | 0, _ => .error "fuel exhausted"
  | _ + 1, [] => .error "Unterminated string"
  | f + 1, c :: rest =>
    if c = dq then .ok ([], rest)
    else if c = bsl then
      match pEsc rest with
      | .ok (ch, r2) =>
        match pStrBody f r2 with
        | .ok (s, r) => .ok (ch :: s, r)
        | .error msg => .error msg
      | .error msg => .error msg
    else if c.toNat < 32 then .error "Invalid control character"
    else
      match pStrBody f rest with
      | .ok (s, r) => .ok (c :: s, r)
      | .error msg => .error msg

/-- Greedily read decimal digits, accumulating their value. -/
def pDigits (acc : Nat) : List Char → Nat × List Char
  | [] => (acc, [])
  | c :: rest => if isDig c then pDigits (acc * 10 + (c.toNat - 48)) rest else (acc, c :: rest)

/-- After an integer literal, a fraction or exponent marker means the number is a
float, which is outside the model; CPython would parse it as a `float`. -/
def numFloatCheck (m : Nat) (l : List Char) : Except String (Nat × List Char) :=
  match l with
  | [] => .ok (m, [])
  | c :: _ => if c = '.' ∨ c = 'e' ∨ c = 'E' then .error "float literal outside the model"
              else .ok (m, l)

/-- Parse a non-negative integer literal following CPython's NUMBER_RE: a single
`0`, or a nonzero digit followed by digits. -/
def pNum (l : List Char) : Except String (Nat × List Char) :=
  match l with
  | [] => .error "Expecting value"
  | c :: rest =>
    if c = '0' then numFloatCheck 0 rest
    else if isDig c then
      match pDigits (c.toNat - 48) rest with
      | (m, r) => numFloatCheck m r
    else .error "Expecting value"

/-- Insertion into the association list modelling a Python dict: an existing key
keeps its position and gets the new value, a new key is appended (so a duplicate
key in a JSON object resolves to the last value, as in `json.loads`). -/
def objInsert : List (String × Json) → String → Json → List (String × Json)
  | [], k, v => [(k, v)]
  | (k0, v0) :: t, k, v =>
      if k0 = k then (k0, v) :: t else (k0, v0) :: objInsert t k v

/-- Parse the tail of `null` after the initial `n`. -/
def pNullLit : List Char → Except String (Json × List Char)
  | u :: l1 :: l2 :: r =>
      if u = 'u' ∧ l1 = 'l' ∧ l2 = 'l' then .ok (.null, r) else .error "Expecting value"
  | _ => .error "Expecting value"

/-- Parse the tail of `true` after the initial `t`. -/
def pTrueLit : List Char → Except String (Json × List Char)
  | r1 :: u1 :: e1 :: r =>
      if r1 = 'r' ∧ u1 = 'u' ∧ e1 = 'e' then .ok (.bool true, r) else .error "Expecting value"
  | _ => .error "Expecting value"

/-- Parse the tail of `false` after the initial `f`. -/
def pFalseLit : List Char → Except String (Json × List Char)
  | a1 :: l1 :: s1 :: e1 :: r =>
      if a1 = 'a' ∧ l1 = 'l' ∧ s1 = 's' ∧ e1 = 'e' then .ok (.bool false, r)
      else .error "Expecting value"
  | _ => .error "Expecting value"

/-- Parse a string value after the opening quote. -/
def pStrVal (rest : List Char) : Except String (Json × List Char) :=
  match pStrBody (rest.length + 1) rest with
  | .ok (cs, r) => .ok (.str ⟨cs⟩, r)
  | .error e => .error e

/-- Parse a negative integer after the minus sign. -/
def pNegNum (rest : List Char) : Except String (Json × List Char) :=
  match pNum rest with
  | .ok (m, r) => .ok (.int (-(m : Int)), r)
  | .error e => .error e

/-- Parse a non-negative integer starting at the first digit. -/
def pPosNum (l : List Char) : Except String (Json × List Char) :=
  match pNum l with
  | .ok (m, r) => .ok (.int (m : Int), r)
  | .error e => .error e

mutual

/-- The JSON value scanner (`json.scanner` with whitespace skipping), fueled. -/
def pVal : Nat → List Char → Except String (Json × List Char)
  | 0, _ => .error "fuel exhausted"
  | f + 1, input => pValCore f (skipWs input)
termination_by f _ => (f, 0)

/-- The scanner body, applied after whitespace skipping. -/
def pValCore : Nat → List Char → Except String (Json × List Char)
  | _, [] => .error "Expecting value"
  | f, c :: rest =>
    if c = 'n' then pNullLit rest
    else if c = 't' then pTrueLit rest
    else if c = 'f' then pFalseLit rest
    else if c = dq then pStrVal rest
    else if c = '-' then pNegNum rest
    else if isDig c then pPosNum (c :: rest)
    else if c = '[' then pArrStart f rest
    else if c = lcu then pObjStart f rest
    else .error "Expecting value"
termination_by f _ => (f, 4)

/-- Parse an array after the opening bracket. -/
def pArrStart : Nat → List Char → Except String (Json × List Char)
  | f, rest =>
    match skipWs rest with
    | [] => .error "Expecting value"
    | c2 :: r2 =>
      if c2 = ']' then .ok (.arr [], r2)
      else
        match pVal f (c2 :: r2) with
        | .ok (v, r3) => pArrRest f [v] r3
        | .error e => .error e
termination_by f _ => (f, 2)

/-- Parse an object after the opening brace. -/
def pObjStart : Nat → List Char → Except String (Json × List Char)
  | f, rest =>
    match skipWs rest with
    | [] => .error "Expecting property name"
    | c2 :: r2 =>
      if c2 = rcu then .ok (.obj [], r2)
      else if c2 = dq then pObjPair f [] r2
      else .error "Expecting property name"
termination_by f _ => (f, 3)

/-- Parse one `"key": value` member (after the key\'s opening quote) and continue
with the member loop; the accumulated dict gets the pair by `objInsert`. -/
def pObjPair : Nat → List (String × Json) → List Char → Except String (Json × List Char)
  | f, acc, r2 =>
    match pStrBody (r2.length + 1) r2 with
    | .ok (k, r3) =>
      match skipWs r3 with
      | [] => .error "Expecting colon delimiter"
      | c4 :: r4 =>
        if c4 = ':' then
          match pVal f r4 with
          | .ok (v, r5) => pObjRest f (objInsert acc ⟨k⟩ v) r5
          | .error e => .error e
        else .error "Expecting colon delimiter"
    | .error e => .error e
termination_by f _ _ => (f, 1)

/-- Loop over `, value` array continuations until `]`. -/
def pArrRest : Nat → List Json → List Char → Except String (Json × List Char)
  | 0, _, _ => .error "fuel exhausted"
  | f + 1, acc, input => pArrRestCore f acc (skipWs input)
termination_by f _ _ => (f, 0)

/-- Body of the array continuation loop. -/
def pArrRestCore : Nat → List Json → List Char → Except String (Json × List Char)
  | _, _, [] => .error "Expecting comma delimiter"
  | f, acc, c :: rest =>
    if c = ']' then .ok (.arr acc, rest)
    else if c = ',' then
      match pVal f rest with
      | .ok (v, r2) => pArrRest f (acc ++ [v]) r2
      | .error e => .error e
    else .error "Expecting comma delimiter"
termination_by f _ _ => (f, 4)

/-- Loop over `, "key": value` object continuations until the closing brace. -/
def pObjRest : Nat → List (String × Json) → List Char → Except String (Json × List Char)
  | 0, _, _ => .error "fuel exhausted"
  | f + 1, acc, input => pObjRestCore f acc (skipWs input)
termination_by f _ _ => (f, 0)

/-- Body of the object continuation loop. -/
def pObjRestCore : Nat → List (String × Json) → List Char → Except String (Json × List Char)
  | _, _, [] => .error "Expecting comma delimiter"
  | f, acc, c :: rest =>
    if c = rcu then .ok (.obj acc, rest)
    else if c = ',' then
      match skipWs rest with
      | [] => .error "Expecting property name"
      | c2 :: r2 =>
        if c2 = dq then pObjPair f acc r2
        else .error "Expecting property name"
    else .error "Expecting comma delimiter"
termination_by f _ _ => (f, 4)

end

/-- Model of Python `json.loads` (restricted to integer numbers; floats,
`NaN`/`Infinity` and lone surrogates are rejected rather than misread). -/
def pyJsonLoads (s : String) : Except String Json :=
  match pVal (s.data.length + 1) s.data with
  | .error e => .error e
  | .ok (v, rest) => if (skipWs rest).isEmpty then .ok v else .error "Extra data"

/-- Model of Python `json.dumps(v, indent=2)`. -/
def pyJsonDumps (v : Json) : String := ⟨enc 0 v⟩

/-- An element of an `xml.etree.ElementTree` tree: its tag, the text between its
start tag and its first child (Python's `elem.text`, with `None` modelled as the
empty string), and its children. Tail text is never read by the source, so the
model does not keep it. -/
inductive XmlElem where
  | node (tag : String) (text : String) (children : List XmlElem)

/-- The tag of an element. -/
def XmlElem.tag : XmlElem → String
  | .node t _ _ => t

/-- The text of an element. -/
def XmlElem.text : XmlElem → String
  | .node _ x _ => x

/-- The children of an element. -/
def XmlElem.children : XmlElem → List XmlElem
  | .node _ _ c => c

mutual

/-- `root.iter()`: the element itself followed by a depth-first traversal of its
children, in document order. -/
def xmlIter : XmlElem → List XmlElem
  | .node t x cs => .node t x cs :: xmlIterList cs

/-- Depth-first traversal of a list of elements. -/
def xmlIterList : List XmlElem → List XmlElem
  | [] => []
  | c :: cs => xmlIter c ++ xmlIterList cs

end

/-- Characters allowed in an XML name by the model parser. -/
def isNameChar (c : Char) : Bool :=
  c.isAlpha || c.isDigit || c = '_' || c = '-' || c = '.' || c = ':'

/-- Read character data up to the next markup; an entity reference is outside the
model (Python's expat would expand it) and is rejected rather than misread. -/
def spanText (l : List Char) : Except String (List Char × List Char) :=
  match l.span (fun c => !(c = '<' || c = '&')) with
  | (txt, r) =>
    match r with
    | c :: _ => if c = '&' then .error "entity references outside the model" else .ok (txt, r)
    | [] => .ok (txt, r)

mutual

/-- Parse one element: `<name>text children</name>` or `<name/>`. Attributes,
comments, processing instructions and CDATA sections are outside the model and
rejected. On the documents it accepts, the resulting tree agrees with
`ET.fromstring` in every field the source reads. -/
def pXmlElem : Nat → List Char → Except String (XmlElem × List Char)
  | 0, _ => .error "fuel exhausted"
  | f + 1, input =>
    match input with
    | [] => .error "no element found"
    | c :: rest =>
      if c = '<' then
        match rest.span isNameChar with
        | (nm, r1) =>
          if nm.isEmpty then .error "malformed start tag"
          else
            match r1 with
            | [] => .error "unclosed start tag"
            | c2 :: r2 =>
              if c2 = '>' then
                match spanText r2 with
                | .error e => .error e
                | .ok (txt, r3) =>
                  match pXmlChildren f ⟨nm⟩ [] r3 with
                  | .ok (cs, r4) => .ok (.node ⟨nm⟩ ⟨txt⟩ cs, r4)
                  | .error e => .error e
              else if c2 = '/' then
                match r2 with
                | c3 :: r3 =>
                    if c3 = '>' then .ok (.node ⟨nm⟩ "" [], r3)
                    else .error "malformed empty-element tag"
                | [] => .error "unclosed start tag"
              else .error "attributes outside the model"
      else .error "expected start tag"

/-- Parse the children of an open element up to and including its end tag;
tail text between siblings is read past (the source never looks at it). -/
def pXmlChildren : Nat → String → List XmlElem → List Char →
    Except String (List XmlElem × List Char)
  | 0, _, _, _ => .error "fuel exhausted"
  | f + 1, tag, acc, input =>
    match input with
    | [] => .error "unterminated element"
    | c :: rest =>
      if c = '<' then
        match rest with
        | [] => .error "unterminated element"
        | c2 :: r2 =>
          if c2 = '/' then
            match r2.span isNameChar with
            | (nm2, r3) =>
              if (⟨nm2⟩ : String) ≠ tag then .error "mismatched end tag"
              else
                match r3 with
                | c3 :: r4 => if c3 = '>' then .ok (acc, r4) else .error "malformed end tag"
                | [] => .error "malformed end tag"
          else
            match pXmlElem f (c :: rest) with
            | .ok (child, r3) =>
              match spanText r3 with
              | .error e => .error e
              | .ok (_, r4) => pXmlChildren f tag (acc ++ [child]) r4
            | .error e => .error e
      else .error "unexpected content"

end

/-- Model of `xml.etree.ElementTree.fromstring` (on the fragment of XML the model
parser accepts): optional leading whitespace, one element, optional trailing
whitespace. -/
def pyXmlFromstring (s : String) : Except String XmlElem :=
  match pXmlElem (s.data.length + 1) (skipWs s.data) with
  | .error e => .error e
  | .ok (root, rest) =>
      if (skipWs rest).isEmpty then .ok root else .error "junk after document element"

/-- The lines collected by the XML branch of `load_file_content`
(`for elem in root.iter(): if elem.text and elem.text.strip(): bug_text.append(...)`). -/
def xmlLines (root : XmlElem) : List String :=
  (xmlIter root).filterMap fun e =>
    if pyStrip e.text ≠ "" then some (pyCapitalize e.tag ++ ": " ++ pyStrip e.text) else none

/-- The JSON branch of `load_file_content`:
`json_data = json.loads(content); return json.dumps(json_data, indent=2)`,
with a parse failure caught by the surrounding `except` clause. -/
def jsonBranch (content : String) : String :=
  match pyJsonLoads content with
  | .error e => "Error reading file: " ++ e
  | .ok v => pyJsonDumps v

/-- The XML branch of `load_file_content`:
`root = ET.fromstring(content); ...; return "\n".join(bug_text)`,
with a parse failure caught by the surrounding `except` clause. -/
def xmlBranch (content : String) : String :=
  match pyXmlFromstring content with
  | .error e => "Error reading file: " ++ e
  | .ok root => String.intercalate "\n" (xmlLines root)

/-- `load_file_content` from `classifier.py`. The file system is passed as `fs`;
`fs file_path` is the outcome of `open(file_path).read()`, with a raised
`OSError` modelled as `.error` carrying `str(e)`. The whole body sits in a
`try/except Exception` block, so every failure becomes an error string. -/
def load_file_content (fs : String → Except String String) (file_path : String) : String :=
  match fs file_path with
  | .error e => "Error reading file: " ++ e
  | .ok content =>
    if pyEndswith (pyLower file_path) ".json" then jsonBranch content
    else if pyEndswith (pyLower file_path) ".xml" then xmlBranch content
    else "Error: Unsupported file format for " ++ file_path

/-- The `priority` domain of the `BugClassification` schema. -/
inductive Priority where
  | high
  | medium
  | low
deriving DecidableEq

/-- The serialised form of a priority. -/
def Priority.toStr : Priority → String
  | .high => "High"
  | .medium => "Medium"
  | .low => "Low"

/-- The `component` domain of the `BugClassification` schema. -/
inductive Component where
  | ui
  | backend
  | database
  | api
  | testing
deriving DecidableEq

/-- The serialised form of a component. -/
def Component.toStr : Component → String
  | .ui => "UI"
  | .backend => "Backend"
  | .database => "Database"
  | .api => "API"
  | .testing => "Testing"

/-- The `BugClassification` pydantic schema: a provider response that validates
against it. -/
structure BugClassification where
  priority : Priority
  component : Component
  is_valid_bug : Bool
  summary_of_bug : String

/-- `result.dict()` on a `BugClassification` instance: its fields, in declaration
order, as a plain mapping. -/
def bcDict (r : BugClassification) : List (String × Json) :=
  [("priority", .str r.priority.toStr), ("component", .str r.component.toStr),
   ("is_valid_bug", .bool r.is_valid_bug), ("summary_of_bug", .str r.summary_of_bug)]

/-- The fixed system message of the prompt template. -/
def systemMessage : String :=
  "You are an expert bug classification system. Classify the report according to the JSON schema."

/-- The human message after the template substitutes the loaded content. -/
def humanMessage (reportContent : String) : String :=
  "Classify the following bug report content:\n\n" ++ reportContent

/-- What one invocation of `classify_bug_report` does: the returned mapping (or
the uncaught exception, as `.error`), whether the remote model was invoked, and
whether the missing-credential warning was printed. -/
structure ClassifyOutcome where
  result : Except String (List (String × Json))
  remoteCalled : Bool
  warned : Bool

/-- `classify_bug_report` from `classifier.py`. The remote chat-completion chain
is the function `remote`, taking the two rendered prompt messages and returning
either a schema-validated response or an uncaught provider/network exception;
`envHasKey` is whether `GOOGLE_API_KEY` is set (its absence only triggers a
warning). -/
def classify_bug_report (fs : String → Except String String)
    (remote : String → String → Except String BugClassification)
    (envHasKey : Bool) (file_path : String) : ClassifyOutcome :=
  let file_content_str := load_file_content fs file_path
  if pyStartswith file_content_str "Error" then
    ⟨.ok [("error", .str file_content_str)], false, false⟩
  else
    match remote systemMessage (humanMessage file_content_str) with
    | .error e => ⟨.error e, true, !envHasKey⟩
    | .ok r => ⟨.ok (bcDict r), true, !envHasKey⟩

/-- The error shape of the result mapping: exactly one key, `error`, holding a
string. -/
def errorShape (m : List (String × Json)) : Prop :=
  ∃ s, m = [("error", Json.str s)]

/-- The success shape of the result mapping: exactly the four schema fields, in
order. -/
def successShape (m : List (String × Json)) : Prop :=
  m.map Prod.fst = ["priority", "component", "is_valid_bug", "summary_of_bug"]

/-! ### Generic helper lemmas -/

theorem strMk_data (s : String) : (⟨s.data⟩ : String) = s := rfl

theorem char_toNat_inj {a b : Char} (h : a.toNat = b.toNat) : a = b :=
  Char.eq_of_val_eq (UInt32.eq_of_toBitVec_eq (BitVec.eq_of_toNat_eq h))

theorem char_eq_iff {a b : Char} : a = b ↔ a.toNat = b.toNat :=
  ⟨fun h => by rw [h], char_toNat_inj⟩

theorem toNat_ofNat_valid {n : Nat} (h : n.isValidChar) : (Char.ofNat n).toNat = n := by
  rw [Char.ofNat, dif_pos h]; rfl

theorem char_valid_nat (c : Char) : c.toNat < 55296 ∨ (57343 < c.toNat ∧ c.toNat < 1114112) :=
  c.valid

theorem pyStartswith_iff {s p : String} : pyStartswith s p = true ↔ p.data <+: s.data := by
  simp [pyStartswith]

theorem pyEndswith_iff {s p : String} : pyEndswith s p = true ↔ p.data <:+ s.data := by
  simp [pyEndswith]

theorem pyStartswith_append_of (s t p : String) (h : pyStartswith s p = true) :
    pyStartswith (s ++ t) p = true := by
  rw [pyStartswith_iff] at h ⊢
  rw [String.data_append]
  exact h.trans (List.prefix_append _ _)

theorem error_reading_startswith (m : String) :
    pyStartswith ("Error reading file: " ++ m) "Error" = true := by
  apply pyStartswith_append_of
  decide

theorem error_unsupported_startswith (m : String) :
    pyStartswith ("Error: Unsupported file format for " ++ m) "Error" = true := by
  apply pyStartswith_append_of
  decide

theorem pyLower_append (a b : String) : pyLower (a ++ b) = pyLower a ++ pyLower b := by
  apply String.ext
  simp [pyLower]

theorem pyEndswith_append (a b : String) : pyEndswith (a ++ b) b = true := by
  rw [pyEndswith_iff, String.data_append]
  exact List.suffix_append _ _

theorem xml_suffix_not_json {s : String} (h : pyEndswith s ".xml" = true) :
    pyEndswith s ".json" = false := by
  rw [pyEndswith_iff] at h
  by_contra hb
  rw [Bool.not_eq_false, pyEndswith_iff] at hb
  rcases List.suffix_or_suffix_of_suffix h hb with h2 | h2 <;> revert h2 <;> decide

/-! ### Whitespace-skipping lemmas -/

theorem skipWs_nil : skipWs [] = [] := rfl

theorem skipWs_cons_ws {c : Char} (h : jsonWs c = true) (l : List Char) :
    skipWs (c :: l) = skipWs l := by
  simp [skipWs, List.dropWhile_cons, h]

theorem skipWs_cons_not_ws {c : Char} (h : jsonWs c = false) (l : List Char) :
    skipWs (c :: l) = c :: l := by
  simp [skipWs, List.dropWhile_cons, h]

theorem skipWs_ind (m : Nat) (l : List Char) : skipWs (ind m ++ l) = skipWs l := by
  induction m with
  | zero => simp [ind]
  | succ k ih =>
    have h2 : 2 * (k + 1) = 2 * k + 1 + 1 := by omega
    have : ind (k + 1) = ' ' :: ' ' :: ind k := by
      rw [ind, h2, List.replicate_succ, List.replicate_succ]
      rfl
    rw [this]
    rw [List.cons_append, List.cons_append,
      skipWs_cons_ws (by decide), skipWs_cons_ws (by decide), ih]

theorem skipWs_newline (l : List Char) : skipWs ('\n' :: l) = skipWs l :=
  skipWs_cons_ws (by decide) l

theorem skipWs_nl_ind (m : Nat) (l : List Char) : skipWs ('\n' :: (ind m ++ l)) = skipWs l := by
  rw [skipWs_newline, skipWs_ind]

/-! ### Parser congruence in the whitespace-skipped input -/

theorem pVal_congr {i1 i2 : List Char} (h : skipWs i1 = skipWs i2) (f : Nat) :
    pVal f i1 = pVal f i2 := by
  cases f with
  | zero => simp [pVal]
  | succ f => rw [pVal, pVal, h]

theorem pArrRest_congr {i1 i2 : List Char} (h : skipWs i1 = skipWs i2) (f : Nat)
    (acc : List Json) : pArrRest f acc i1 = pArrRest f acc i2 := by
  cases f with
  | zero => simp [pArrRest]
  | succ f => rw [pArrRest, pArrRest, h]

theorem pObjRest_congr {i1 i2 : List Char} (h : skipWs i1 = skipWs i2) (f : Nat)
    (acc : List (String × Json)) : pObjRest f acc i1 = pObjRest f acc i2 := by
  cases f with
  | zero => simp [pObjRest]
  | succ f => rw [pObjRest, pObjRest, h]

/-! ### Character and digit facts -/

theorem hexVal_hexChar : ∀ d, d < 16 → hexVal (hexChar d) = some d := by decide

theorem digitChar_isDig : ∀ d, d < 10 → isDig (digitChar d) = true := by decide

theorem digitChar_toNat : ∀ d, d < 10 → (digitChar d).toNat = 48 + d := by decide

theorem isDig_toNat {c : Char} (h : isDig c = true) : 48 ≤ c.toNat ∧ c.toNat ≤ 57 := by
  simpa [isDig] using h

/-! ### Round trip for string literals -/

theorem pEsc_simple {e : Char} {ch : Char} (he : e ≠ 'u') (hs : simpleEsc e = some ch)
    (tail : List Char) : pEsc (e :: tail) = .ok (ch, tail) := by
  simp [pEsc, he, hs]

theorem pHex4_hex4 (n : Nat) (hn : n < 65536) (tail : List Char) :
    pHex4 (hex4 n ++ tail) = .ok (n, tail) := by
  have e1 : hexVal (hexChar (n / 4096 % 16)) = some (n / 4096 % 16) :=
    hexVal_hexChar _ (Nat.mod_lt _ (by norm_num))
  have e2 : hexVal (hexChar (n / 256 % 16)) = some (n / 256 % 16) :=
    hexVal_hexChar _ (Nat.mod_lt _ (by norm_num))
  have e3 : hexVal (hexChar (n / 16 % 16)) = some (n / 16 % 16) :=
    hexVal_hexChar _ (Nat.mod_lt _ (by norm_num))
  have e4 : hexVal (hexChar (n % 16)) = some (n % 16) :=
    hexVal_hexChar _ (Nat.mod_lt _ (by norm_num))
  have hsum : n / 4096 % 16 * 4096 + n / 256 % 16 * 256 + n / 16 % 16 * 16 + n % 16 = n := by
    omega
  simp [hex4, pHex4, e1, e2, e3, e4, hsum]

theorem pStrBody_encChar (c : Char) (tail : List Char) (f : Nat) :
    pStrBody (f + 1) (encChar c ++ tail) =
      match pStrBody f tail with
      | .ok (s, r) => .ok (c :: s, r)
      | .error msg => .error msg := by
  have hv := char_valid_nat c
  by_cases h1 : c = dq
  · subst h1
    simp +decide [encChar, pStrBody, pEsc, simpleEsc]
  by_cases h2 : c = bsl
  · subst h2
    simp +decide [encChar, pStrBody, pEsc, simpleEsc]
  by_cases h3 : 32 ≤ c.toNat ∧ c.toNat ≤ 126
  · have hlt : ¬ (c.toNat < 32) := by omega
    simp [encChar, if_neg h1, if_neg h2, if_pos h3, pStrBody, h1, h2, hlt]
  by_cases h8 : c.toNat = 8
  · have hc : c = Char.ofNat 8 := by rw [← Char.ofNat_toNat c, h8]
    subst hc
    simp +decide [encChar, pStrBody, pEsc, simpleEsc]
  by_cases h9 : c.toNat = 9
  · have hc : c = Char.ofNat 9 := by rw [← Char.ofNat_toNat c, h9]
    subst hc
    simp +decide [encChar, pStrBody, pEsc, simpleEsc]
  by_cases h10 : c.toNat = 10
  · have hc : c = Char.ofNat 10 := by rw [← Char.ofNat_toNat c, h10]
    subst hc
    simp +decide [encChar, pStrBody, pEsc, simpleEsc]
  by_cases h12 : c.toNat = 12
  · have hc : c = Char.ofNat 12 := by rw [← Char.ofNat_toNat c, h12]
    subst hc
    simp +decide [encChar, pStrBody, pEsc, simpleEsc]
  by_cases h13 : c.toNat = 13
  · have hc : c = Char.ofNat 13 := by rw [← Char.ofNat_toNat c, h13]
    subst hc
    simp +decide [encChar, pStrBody, pEsc, simpleEsc]
  by_cases hb : c.toNat < 65536
  · -- basic-plane character escaped as a single \uXXXX
    have hE : encChar c = bsl :: 'u' :: hex4 c.toNat := by
      rw [encChar, if_neg h1, if_neg h2, if_neg h3, if_neg h8, if_neg h9, if_neg h10,
        if_neg h12, if_neg h13, if_pos hb]
    have hns1 : ¬ (55296 ≤ c.toNat ∧ c.toNat ≤ 56319) := by omega
    have hns2 : ¬ (56320 ≤ c.toNat ∧ c.toNat ≤ 57343) := by omega
    have hpe : pEsc ('u' :: (hex4 c.toNat ++ tail)) = .ok (c, tail) := by
      simp [pEsc, pHex4_hex4 c.toNat hb, if_neg hns1, if_neg hns2, Char.ofNat_toNat]
    rw [hE]
    have hshape : bsl :: 'u' :: hex4 c.toNat ++ tail =
        bsl :: ('u' :: (hex4 c.toNat ++ tail)) := by simp
    rw [hshape, pStrBody]
    simp +decide [hpe]
  · -- astral character escaped as a surrogate pair
    have hval : c.toNat < 1114112 := by omega
    have hE : encChar c = bsl :: 'u' :: hex4 (55296 + (c.toNat - 65536) / 1024) ++
        bsl :: 'u' :: hex4 (56320 + (c.toNat - 65536) % 1024) := by
      rw [encChar, if_neg h1, if_neg h2, if_neg h3, if_neg h8, if_neg h9, if_neg h10,
        if_neg h12, if_neg h13, if_neg hb]
    have hhi : 55296 + (c.toNat - 65536) / 1024 < 65536 := by omega
    have hlo : 56320 + (c.toNat - 65536) % 1024 < 65536 := by omega
    have hhirange : 55296 ≤ 55296 + (c.toNat - 65536) / 1024 ∧
        55296 + (c.toNat - 65536) / 1024 ≤ 56319 := by omega
    have hlorange : 56320 ≤ 56320 + (c.toNat - 65536) % 1024 ∧
        56320 + (c.toNat - 65536) % 1024 ≤ 57343 := by omega
    have hcomb : 65536 + (55296 + (c.toNat - 65536) / 1024 - 55296) * 1024 +
        (56320 + (c.toNat - 65536) % 1024 - 56320) = c.toNat := by omega
    have hpe : pEsc ('u' :: (hex4 (55296 + (c.toNat - 65536) / 1024) ++
        (bsl :: 'u' :: (hex4 (56320 + (c.toNat - 65536) % 1024) ++ tail)))) =
        .ok (c, tail) := by
      rw [pEsc]
      simp only [if_pos rfl, pHex4_hex4 _ hhi, if_pos hhirange]
      simp +decide [pHex4_hex4 _ hlo]
      rw [if_pos hlorange.2]
      have hx : 65536 + (c.toNat - 65536) / 1024 * 1024 + (c.toNat - 65536) % 1024 =
          c.toNat := by omega
      rw [hx, Char.ofNat_toNat]
    rw [hE]
    have hshape : (bsl :: 'u' :: hex4 (55296 + (c.toNat - 65536) / 1024) ++
        bsl :: 'u' :: hex4 (56320 + (c.toNat - 65536) % 1024)) ++ tail =
        bsl :: ('u' :: (hex4 (55296 + (c.toNat - 65536) / 1024) ++
          (bsl :: 'u' :: (hex4 (56320 + (c.toNat - 65536) % 1024) ++ tail)))) := by simp
    rw [hshape, pStrBody]
    simp +decide [hpe]

theorem pStrBody_encBody :
    ∀ (cs : List Char) (f : Nat) (rest : List Char), cs.length < f →
      pStrBody f (encBody cs ++ dq :: rest) = .ok (cs, rest) := by
  intro cs
  induction cs with
  | nil =>
    intro f rest hf
    match f, hf with
    | f + 1, _ => simp +decide [encBody, pStrBody]
  | cons c cs ih =>
    intro f rest hf
    match f, hf with
    | f + 1, hf2 =>
      rw [encBody, List.append_assoc, pStrBody_encChar,
        ih f rest (by simp only [List.length_cons] at hf2; omega)]

/-! ### Round trip for integer literals -/

theorem numStopB_spec {c : Char} {l : List Char} (h : numStopB (c :: l) = true) :
    isDig c = false ∧ c ≠ '.' ∧ c ≠ 'e' ∧ c ≠ 'E' := by
  simp only [numStopB, Bool.and_eq_true, Bool.not_eq_true', decide_eq_false_iff_not] at h
  tauto

theorem numFloatCheck_stop (m : Nat) {rest : List Char} (h : numStopB rest = true) :
    numFloatCheck m rest = .ok (m, rest) := by
  cases rest with
  | nil => rfl
  | cons c l =>
    obtain ⟨_, h2, h3, h4⟩ := numStopB_spec h
    simp [numFloatCheck, h2, h3, h4]

theorem isDig_ne {c d : Char} (hc : isDig c = true) (hd : isDig d = false) : c ≠ d :=
  fun e => by subst e; rw [hc] at hd; cases hd

theorem isDig_not_ws {c : Char} (hc : isDig c = true) : jsonWs c = false := by
  by_contra hb
  rw [Bool.not_eq_false] at hb
  simp only [jsonWs, Bool.or_eq_true, decide_eq_true_eq] at hb
  rcases hb with ((h | h) | h) | h <;> subst h <;> revert hc <;> decide

theorem pDigits_append :
    ∀ (ds : List Nat) (acc : Nat) (rest : List Char), (∀ d ∈ ds, d < 10) →
      (∀ c l, rest = c :: l → isDig c = false) →
      pDigits acc (ds.map digitChar ++ rest) =
        (acc * 10 ^ ds.length + Nat.ofDigits 10 ds.reverse, rest) := by
  intro ds
  induction ds with
  | nil =>
    intro acc rest _ hrest
    cases rest with
    | nil => simp [pDigits, Nat.ofDigits_nil]
    | cons c l => simp [pDigits, hrest c l rfl, Nat.ofDigits_nil]
  | cons d ds ih =>
    intro acc rest h10 hrest
    have hd : d < 10 := h10 d (by simp)
    have hdig := digitChar_isDig d hd
    have htn := digitChar_toNat d hd
    have hred : 48 + d - 48 = d := by omega
    rw [List.map_cons, List.cons_append, pDigits, if_pos hdig, htn, hred,
      ih (acc * 10 + d) rest (fun x hx => h10 x (by simp [hx])) hrest]
    have harith : (acc * 10 + d) * 10 ^ ds.length + Nat.ofDigits 10 ds.reverse =
        acc * 10 ^ (d :: ds).length + Nat.ofDigits 10 (d :: ds).reverse := by
      rw [List.reverse_cons, Nat.ofDigits_append, Nat.ofDigits_singleton,
        List.length_reverse, List.length_cons, pow_succ]
      ring
    rw [harith]

theorem natChars_shape (m : Nat) :
    ∃ c t, natChars m = c :: t ∧ isDig c = true := by
  by_cases hm : m = 0
  · exact ⟨'0', [], by simp [natChars, hm], by decide⟩
  · have hL : Nat.digits 10 m ≠ [] := Nat.digits_ne_nil_iff_ne_zero.mpr hm
    have hLrev : (Nat.digits 10 m).reverse ≠ [] := by simpa using hL
    obtain ⟨d, T, hrev⟩ := List.exists_cons_of_ne_nil hLrev
    have hdmem : d ∈ Nat.digits 10 m := by
      rw [← List.mem_reverse, hrev]; simp
    have hd10 : d < 10 := Nat.digits_lt_base (by norm_num) hdmem
    exact ⟨digitChar d, T.map digitChar, by simp [natChars, hm, hrev],
      digitChar_isDig d hd10⟩

theorem pNum_natChars (m : Nat) (rest : List Char) (hrest : numStopB rest = true) :
    pNum (natChars m ++ rest) = .ok (m, rest) := by
  by_cases hm : m = 0
  · subst hm
    rw [natChars]
    simp +decide [pNum, numFloatCheck_stop 0 hrest]
  · have hL : Nat.digits 10 m ≠ [] := Nat.digits_ne_nil_iff_ne_zero.mpr hm
    have hLrev : (Nat.digits 10 m).reverse ≠ [] := by simpa using hL
    obtain ⟨d, T, hrev⟩ := List.exists_cons_of_ne_nil hLrev
    have hdmem : d ∈ Nat.digits 10 m := by
      rw [← List.mem_reverse, hrev]; simp
    have hd10 : d < 10 := Nat.digits_lt_base (by norm_num) hdmem
    have hdlast : d = (Nat.digits 10 m).getLast hL := by
      have h1 : (Nat.digits 10 m).getLast? = some ((Nat.digits 10 m).getLast hL) :=
        List.getLast?_eq_getLast _ hL
      have h2 : (Nat.digits 10 m).getLast? = some d := by
        rw [List.getLast?_eq_head?_reverse, hrev]; rfl
      rw [h2] at h1
      exact Option.some_inj.mp h1
    have hdne : d ≠ 0 := hdlast ▸ Nat.getLast_digit_ne_zero 10 hm
    have hNC : natChars m = digitChar d :: T.map digitChar := by
      simp [natChars, hm, hrev]
    have hne0 : digitChar d ≠ '0' := by
      intro e
      have := congrArg Char.toNat e
      rw [digitChar_toNat d hd10] at this
      have : 48 + d = 48 := by simpa using this
      omega
    have hT10 : ∀ x ∈ T, x < 10 := by
      intro x hx
      have : x ∈ Nat.digits 10 m := by
        rw [← List.mem_reverse, hrev]
        exact List.mem_cons_of_mem _ hx
      exact Nat.digits_lt_base (by norm_num) this
    have hstop : ∀ c l, rest = c :: l → isDig c = false := by
      intro c l he
      subst he
      exact (numStopB_spec hrest).1
    rw [hNC, List.cons_append, pNum, if_neg hne0, if_pos (digitChar_isDig d hd10),
      digitChar_toNat d hd10]
    have hred : 48 + d - 48 = d := by omega
    rw [hred]
    simp only [pDigits_append T d rest hT10 hstop]
    have hval : d * 10 ^ T.length + Nat.ofDigits 10 T.reverse = m := by
      have hm_eq : m = Nat.ofDigits 10 (Nat.digits 10 m) := (Nat.ofDigits_digits 10 m).symm
      have hL_eq : Nat.digits 10 m = T.reverse ++ [d] := by
        have := congrArg List.reverse hrev
        simpa using this
      rw [hm_eq, hL_eq, Nat.ofDigits_append, Nat.ofDigits_singleton,
        List.length_reverse]
      ring
    rw [hval]
    exact numFloatCheck_stop m hrest

theorem pValCore_intChars (f : Nat) (n : Int) (rest : List Char)
    (hrest : numStopB rest = true) :
    pValCore f (intChars n ++ rest) = .ok (.int n, rest) := by
  by_cases hn : n < 0
  · have habs : -((n.natAbs : Nat) : Int) = n := by omega
    rw [intChars, if_pos hn, List.cons_append, pValCore]
    simp +decide only []
    simp only [pNegNum, pNum_natChars n.natAbs rest hrest, habs, if_true, if_false]
  · have habs : ((n.natAbs : Nat) : Int) = n := by omega
    obtain ⟨c, t, hnc, hdig⟩ := natChars_shape n.natAbs
    rw [intChars, if_neg hn, hnc, List.cons_append, pValCore]
    have h1 : c ≠ 'n' := isDig_ne hdig (by decide)
    have h2 : c ≠ 't' := isDig_ne hdig (by decide)
    have h3 : c ≠ 'f' := isDig_ne hdig (by decide)
    have h4 : c ≠ dq := isDig_ne hdig (by decide)
    have h5 : c ≠ '-' := isDig_ne hdig (by decide)
    have hglue : c :: (t ++ rest) = natChars n.natAbs ++ rest := by
      rw [hnc]; rfl
    rw [if_neg h1, if_neg h2, if_neg h3, if_neg h4, if_neg h5, if_pos hdig, hglue]
    simp [pPosNum, pNum_natChars n.natAbs rest hrest, habs]

/-! ### Heads of encodings, length bounds, dict insertion -/

theorem intChars_shape (n : Int) :
    ∃ c t, intChars n = c :: t ∧ jsonWs c = false ∧ c ≠ ']' ∧ c ≠ rcu := by
  by_cases hn : n < 0
  · exact ⟨'-', natChars n.natAbs, by rw [intChars, if_pos hn], by decide, by decide, by decide⟩
  · obtain ⟨c, t, hnc, hdig⟩ := natChars_shape n.natAbs
    exact ⟨c, t, by rw [intChars, if_neg hn, hnc], isDig_not_ws hdig,
      isDig_ne hdig (by decide), isDig_ne hdig (by decide)⟩

theorem enc_head (lvl : Nat) (v : Json) :
    ∃ c t, enc lvl v = c :: t ∧ jsonWs c = false ∧ c ≠ ']' ∧ c ≠ rcu := by
  cases v with
  | null =>
    exact ⟨'n', ['u', 'l', 'l'], by simp [enc, nullChars], by decide, by decide, by decide⟩
  | bool b =>
    cases b with
    | true =>
      exact ⟨'t', ['r', 'u', 'e'], by simp [enc, trueChars], by decide, by decide, by decide⟩
    | false =>
      exact ⟨'f', ['a', 'l', 's', 'e'], by simp [enc, falseChars],
        by decide, by decide, by decide⟩
  | int n =>
    obtain ⟨c, t, hc, h1, h2, h3⟩ := intChars_shape n
    exact ⟨c, t, by simp [enc, hc], h1, h2, h3⟩
  | str s =>
    exact ⟨dq, encBody s.data ++ [dq], by simp [enc], by decide, by decide, by decide⟩
  | arr xs =>
    cases xs with
    | nil => exact ⟨'[', [']'], by simp [enc], by decide, by decide, by decide⟩
    | cons x t =>
      exact ⟨'[', '\n' :: (ind (lvl + 1) ++ (enc (lvl + 1) x ++
        (encItems (lvl + 1) t ++ '\n' :: (ind lvl ++ [']'])))),
        by simp [enc], by decide, by decide, by decide⟩
  | obj kvs =>
    cases kvs with
    | nil => exact ⟨lcu, [rcu], by simp [enc], by decide, by decide, by decide⟩
    | cons kv t =>
      obtain ⟨k, v⟩ := kv
      exact ⟨lcu, '\n' :: (ind (lvl + 1) ++ dq :: (encBody k.data ++
        dq :: ':' :: ' ' :: (enc (lvl + 1) v ++ (encPairs (lvl + 1) t ++
          '\n' :: (ind lvl ++ [rcu]))))),
        by simp [enc], by decide, by decide, by decide⟩

theorem skipWs_enc (lvl : Nat) (v : Json) (rest : List Char) :
    skipWs (enc lvl v ++ rest) = enc lvl v ++ rest := by
  obtain ⟨c, t, he, hws, _, _⟩ := enc_head lvl v
  rw [he, List.cons_append, skipWs_cons_not_ws hws]

theorem numStopB_items (lvl : Nat) (xs : List Json) (l : List Char) :
    numStopB (encItems lvl xs ++ '\n' :: l) = true := by
  cases xs with
  | nil => simp +decide [encItems, numStopB]
  | cons x t => simp +decide [encItems, numStopB]

theorem numStopB_pairs (lvl : Nat) (kvs : List (String × Json)) (l : List Char) :
    numStopB (encPairs lvl kvs ++ '\n' :: l) = true := by
  cases kvs with
  | nil => simp +decide [encPairs, numStopB]
  | cons kv t =>
    obtain ⟨k, v⟩ := kv
    simp +decide [encPairs, numStopB]

theorem objInsert_not_mem :
    ∀ (acc : List (String × Json)) (k : String) (v : Json),
      k ∉ acc.map Prod.fst → objInsert acc k v = acc ++ [(k, v)] := by
  intro acc
  induction acc with
  | nil => intro k v _; rfl
  | cons p t ih =>
    intro k v h
    obtain ⟨k0, v0⟩ := p
    simp only [List.map_cons, List.mem_cons] at h
    push_neg at h
    rw [objInsert, if_neg (fun e => h.1 e.symm), ih k v h.2, List.cons_append]

theorem encChar_length_pos (c : Char) : 1 ≤ (encChar c).length := by
  rw [encChar]
  split_ifs <;> simp [hex4]

theorem encBody_length_ge (cs : List Char) : cs.length ≤ (encBody cs).length := by
  induction cs with
  | nil => simp [encBody]
  | cons c t ih =>
    rw [encBody, List.length_append, List.length_cons]
    have := encChar_length_pos c
    omega

theorem pStrVal_enc (s : String) (rest : List Char) :
    pStrVal (encBody s.data ++ dq :: rest) = .ok (.str s, rest) := by
  rw [pStrVal, pStrBody_encBody s.data _ rest
    (by
      have h1 := encBody_length_ge s.data
      rw [List.length_append, List.length_cons]
      omega)]

theorem jsonFuel_pos (v : Json) : 1 ≤ jsonFuel v := by
  cases v <;> simp [jsonFuel]

/-! ### The parse/serialise round trip -/

theorem rt_main : ∀ fuel : Nat,
    (∀ v lvl rest, wfJ v → jsonFuel v ≤ fuel → numStopB rest = true →
      pVal fuel (enc lvl v ++ rest) = .ok (v, rest)) ∧
    (∀ xs acc lvl rest, wfList xs → listFuel xs + 1 ≤ fuel →
      pArrRest fuel acc (encItems (lvl + 1) xs ++ '\n' :: (ind lvl ++ ']' :: rest)) =
        .ok (.arr (acc ++ xs), rest)) ∧
    (∀ kvs acc lvl rest, wfPairs kvs → ((acc ++ kvs).map Prod.fst).Nodup →
      pairsFuel kvs + 1 ≤ fuel →
      pObjRest fuel acc (encPairs (lvl + 1) kvs ++ '\n' :: (ind lvl ++ rcu :: rest)) =
        .ok (.obj (acc ++ kvs), rest)) := by
  intro fuel
  induction fuel using Nat.strong_induction_on with
  | _ fuel ih =>
  cases fuel with
  | zero =>
    refine ⟨?_, ?_, ?_⟩
    · intro v lvl rest _ hfuel _
      exact absurd hfuel (by have := jsonFuel_pos v; omega)
    · intro xs acc lvl rest _ hfuel
      exact absurd hfuel (by omega)
    · intro kvs acc lvl rest _ _ hfuel
      exact absurd hfuel (by omega)
  | succ f =>
    have ihV := (ih f (Nat.lt_succ_self f)).1
    have ihA := (ih f (Nat.lt_succ_self f)).2.1
    have ihO := (ih f (Nat.lt_succ_self f)).2.2
    refine ⟨?_, ?_, ?_⟩
    · -- values
      intro v lvl rest hwf hfuel hstop
      rw [pVal, skipWs_enc]
      cases v with
      | null => simp +decide [enc, nullChars, pValCore, pNullLit]
      | bool b =>
        cases b <;>
          simp +decide [enc, trueChars, falseChars, pValCore, pTrueLit, pFalseLit]
      | int n =>
        have he : enc lvl (.int n) = intChars n := by simp [enc]
        rw [he]
        exact pValCore_intChars f n rest hstop
      | str s =>
        have he : enc lvl (.str s) = dq :: (encBody s.data ++ [dq]) := by simp [enc]
        rw [he, List.cons_append, pValCore]
        rw [if_neg (by decide), if_neg (by decide), if_neg (by decide), if_pos rfl]
        rw [List.append_assoc, List.singleton_append]
        exact pStrVal_enc s rest
      | arr xs =>
        cases xs with
        | nil =>
          have he : enc lvl (.arr []) = ['[', ']'] := by simp [enc]
          rw [he, List.cons_append, pValCore]
          rw [if_neg (by decide), if_neg (by decide), if_neg (by decide), if_neg (by decide),
            if_neg (by decide), if_neg (by decide), if_pos rfl]
          rw [pArrStart, List.singleton_append, skipWs_cons_not_ws (by decide)]
          simp +decide
        | cons x xs2 =>
          rw [wfJ, wfList] at hwf
          obtain ⟨hwx, hwxs⟩ := hwf
          rw [jsonFuel, listFuel] at hfuel
          have he : enc lvl (.arr (x :: xs2)) = '[' :: ('\n' :: (ind (lvl + 1) ++
              (enc (lvl + 1) x ++ (encItems (lvl + 1) xs2 ++ '\n' :: (ind lvl ++ [']']))))) := by
            simp [enc]
          rw [he, List.cons_append, pValCore]
          rw [if_neg (by decide), if_neg (by decide), if_neg (by decide), if_neg (by decide),
            if_neg (by decide), if_neg (by decide), if_pos rfl]
          simp only [List.cons_append, List.append_assoc, List.singleton_append,
            List.nil_append]
          rw [pArrStart]
          rw [show skipWs ('\n' :: (ind (lvl + 1) ++ (enc (lvl + 1) x ++
              (encItems (lvl + 1) xs2 ++ '\n' :: (ind lvl ++ ']' :: rest))))) =
            enc (lvl + 1) x ++ (encItems (lvl + 1) xs2 ++ '\n' :: (ind lvl ++ ']' :: rest))
            from by rw [skipWs_newline, skipWs_ind, skipWs_enc]]
          obtain ⟨c, t, hct, hws, hne, _⟩ := enc_head (lvl + 1) x
          rw [hct, List.cons_append]
          simp only []
          rw [if_neg hne, ← List.cons_append, ← hct]
          rw [ihV x (lvl + 1) _ hwx (by omega) (numStopB_items _ _ _)]
          simp only []
          rw [ihA xs2 [x] lvl rest hwxs (by omega)]
          simp
      | obj kvs =>
        cases kvs with
        | nil =>
          have he : enc lvl (.obj []) = [lcu, rcu] := by simp [enc]
          rw [he]
          simp +decide [pValCore, pObjStart, skipWs_cons_not_ws]
        | cons kv kvs2 =>
          obtain ⟨k, v⟩ := kv
          rw [wfJ, wfPairs] at hwf
          obtain ⟨hnd, hwv, hwkvs⟩ := hwf
          rw [jsonFuel, pairsFuel] at hfuel
          have he : enc lvl (.obj ((k, v) :: kvs2)) = lcu :: ('\n' :: (ind (lvl + 1) ++
              dq :: (encBody k.data ++ dq :: ':' :: ' ' :: (enc (lvl + 1) v ++
                (encPairs (lvl + 1) kvs2 ++ '\n' :: (ind lvl ++ [rcu])))))) := by
            simp [enc]
          rw [he, List.cons_append, pValCore]
          rw [if_neg (by decide), if_neg (by decide), if_neg (by decide), if_neg (by decide),
            if_neg (by decide), if_neg (by decide), if_neg (by decide), if_pos rfl]
          simp only [List.cons_append, List.append_assoc, List.singleton_append,
            List.nil_append]
          rw [pObjStart]
          rw [show skipWs ('\n' :: (ind (lvl + 1) ++ dq :: (encBody k.data ++
              dq :: ':' :: ' ' :: (enc (lvl + 1) v ++ (encPairs (lvl + 1) kvs2 ++
                '\n' :: (ind lvl ++ rcu :: rest)))))) =
            dq :: (encBody k.data ++ dq :: ':' :: ' ' :: (enc (lvl + 1) v ++
              (encPairs (lvl + 1) kvs2 ++ '\n' :: (ind lvl ++ rcu :: rest))))
            from by rw [skipWs_newline, skipWs_ind, skipWs_cons_not_ws (by decide)]]
          simp only []
          rw [if_neg (by decide)]
          simp only [if_true]
          rw [pObjPair]
          rw [pStrBody_encBody k.data _ _ (by
            have h1 := encBody_length_ge k.data
            rw [List.length_append, List.length_cons]
            omega)]
          simp only [skipWs_cons_not_ws (show jsonWs ':' = false from by decide), reduceIte]
          rw [pVal_congr (skipWs_cons_ws (by decide) _) f]
          rw [ihV v (lvl + 1) _ hwv (by omega) (numStopB_pairs _ _ _)]
          simp only []
          rw [show objInsert [] (⟨k.data⟩ : String) v = [(k, v)] from by
            rw [objInsert, strMk_data]]
          rw [ihO kvs2 [(k, v)] lvl rest hwkvs (by simpa using hnd) (by omega)]
          simp
    · -- array continuations
      intro xs acc lvl rest hwf hfuel
      rw [pArrRest]
      cases xs with
      | nil =>
        simp only [encItems, List.nil_append]
        rw [skipWs_nl_ind, skipWs_cons_not_ws (by decide)]
        simp +decide [pArrRestCore]
      | cons x xs2 =>
        rw [wfList] at hwf
        obtain ⟨hwx, hwxs⟩ := hwf
        rw [listFuel] at hfuel
        simp only [encItems, List.cons_append, List.append_assoc, List.singleton_append,
          List.nil_append]
        rw [skipWs_cons_not_ws (by decide)]
        rw [pArrRestCore]
        rw [if_neg (by decide), if_pos rfl]
        rw [pVal_congr (show skipWs ('\n' :: (ind (lvl + 1) ++ (enc (lvl + 1) x ++
            (encItems (lvl + 1) xs2 ++ '\n' :: (ind lvl ++ ']' :: rest))))) =
          skipWs (enc (lvl + 1) x ++ (encItems (lvl + 1) xs2 ++
            '\n' :: (ind lvl ++ ']' :: rest)))
          from by rw [skipWs_newline, skipWs_ind]) f]
        rw [ihV x (lvl + 1) _ hwx (by omega) (numStopB_items _ _ _)]
        simp only []
        rw [ihA xs2 (acc ++ [x]) lvl rest hwxs (by omega)]
        simp
    · -- object continuations
      intro kvs acc lvl rest hwf hnd hfuel
      rw [pObjRest]
      cases kvs with
      | nil =>
        simp only [encPairs, List.nil_append]
        rw [skipWs_nl_ind, skipWs_cons_not_ws (by decide)]
        simp +decide [pObjRestCore]
      | cons kv kvs2 =>
        obtain ⟨k, v⟩ := kv
        rw [wfPairs] at hwf
        obtain ⟨hwv, hwkvs⟩ := hwf
        rw [pairsFuel] at hfuel
        simp only [encPairs, List.cons_append, List.append_assoc, List.singleton_append,
          List.nil_append]
        rw [skipWs_cons_not_ws (by decide)]
        rw [pObjRestCore]
        rw [if_neg (by decide), if_pos rfl]
        rw [show skipWs ('\n' :: (ind (lvl + 1) ++ dq :: (encBody k.data ++
            dq :: ':' :: ' ' :: (enc (lvl + 1) v ++ (encPairs (lvl + 1) kvs2 ++
              '\n' :: (ind lvl ++ rcu :: rest)))))) =
          dq :: (encBody k.data ++ dq :: ':' :: ' ' :: (enc (lvl + 1) v ++
            (encPairs (lvl + 1) kvs2 ++ '\n' :: (ind lvl ++ rcu :: rest))))
          from by rw [skipWs_newline, skipWs_ind, skipWs_cons_not_ws (by decide)]]
        simp only []
        simp only [if_true]
        rw [pObjPair]
        rw [pStrBody_encBody k.data _ _ (by
          have h1 := encBody_length_ge k.data
          rw [List.length_append, List.length_cons]
          omega)]
        simp only [skipWs_cons_not_ws (show jsonWs ':' = false from by decide), reduceIte]
        rw [pVal_congr (skipWs_cons_ws (by decide) _) f]
        rw [ihV v (lvl + 1) _ hwv (by omega) (numStopB_pairs _ _ _)]
        simp only []
        have hknotin : k ∉ acc.map Prod.fst := by
          intro hk
          rw [List.map_append] at hnd
          rcases List.disjoint_of_nodup_append hnd with hdisj
          exact hdisj hk (by simp)
        rw [show objInsert acc (⟨k.data⟩ : String) v = acc ++ [(k, v)] from by
          rw [strMk_data]; exact objInsert_not_mem acc k v hknotin]
        rw [ihO kvs2 (acc ++ [(k, v)]) lvl rest hwkvs
          (by rw [List.append_assoc]; simpa using hnd) (by omega)]
        simp

/-! ### Parsed values are well-formed -/

theorem pNullLit_shape : ∀ {l : List Char} {v : Json} {r : List Char},
    pNullLit l = .ok (v, r) → v = .null := by
  intro l v r h
  rcases l with _ | ⟨a, _ | ⟨b, _ | ⟨c, t⟩⟩⟩
  · simp [pNullLit] at h
  · simp [pNullLit] at h
  · simp [pNullLit] at h
  · rw [pNullLit] at h
    split_ifs at h
    simp only [Except.ok.injEq, Prod.mk.injEq] at h
    exact h.1.symm

theorem pTrueLit_shape : ∀ {l : List Char} {v : Json} {r : List Char},
    pTrueLit l = .ok (v, r) → v = .bool true := by
  intro l v r h
  rcases l with _ | ⟨a, _ | ⟨b, _ | ⟨c, t⟩⟩⟩
  · simp [pTrueLit] at h
  · simp [pTrueLit] at h
  · simp [pTrueLit] at h
  · rw [pTrueLit] at h
    split_ifs at h
    simp only [Except.ok.injEq, Prod.mk.injEq] at h
    exact h.1.symm

theorem pFalseLit_shape : ∀ {l : List Char} {v : Json} {r : List Char},
    pFalseLit l = .ok (v, r) → v = .bool false := by
  intro l v r h
  rcases l with _ | ⟨a, _ | ⟨b, _ | ⟨c, _ | ⟨d, t⟩⟩⟩⟩
  · simp [pFalseLit] at h
  · simp [pFalseLit] at h
  · simp [pFalseLit] at h
  · simp [pFalseLit] at h
  · rw [pFalseLit] at h
    split_ifs at h
    simp only [Except.ok.injEq, Prod.mk.injEq] at h
    exact h.1.symm

theorem pStrVal_shape {rest : List Char} {v : Json} {r : List Char}
    (h : pStrVal rest = .ok (v, r)) : ∃ s, v = .str s := by
  rw [pStrVal] at h
  rcases hp : pStrBody (rest.length + 1) rest with m | ⟨cs, r2⟩ <;> rw [hp] at h
  · simp at h
  · simp only [Except.ok.injEq, Prod.mk.injEq] at h
    exact ⟨⟨cs⟩, h.1.symm⟩

theorem pNegNum_shape {rest : List Char} {v : Json} {r : List Char}
    (h : pNegNum rest = .ok (v, r)) : ∃ n, v = .int n := by
  rw [pNegNum] at h
  rcases hp : pNum rest with m | ⟨m2, r2⟩ <;> rw [hp] at h
  · simp at h
  · simp only [Except.ok.injEq, Prod.mk.injEq] at h
    exact ⟨-(m2 : Int), h.1.symm⟩

theorem pPosNum_shape {l : List Char} {v : Json} {r : List Char}
    (h : pPosNum l = .ok (v, r)) : ∃ n, v = .int n := by
  rw [pPosNum] at h
  rcases hp : pNum l with m | ⟨m2, r2⟩ <;> rw [hp] at h
  · simp at h
  · simp only [Except.ok.injEq, Prod.mk.injEq] at h
    exact ⟨(m2 : Int), h.1.symm⟩

theorem wfList_snoc (acc : List Json) (x : Json) (hacc : wfList acc) (hx : wfJ x) :
    wfList (acc ++ [x]) := by
  induction acc with
  | nil => exact ⟨hx, trivial⟩
  | cons y t ih =>
    rw [wfList] at hacc
    exact ⟨hacc.1, ih hacc.2⟩

theorem wfPairs_objInsert : ∀ (acc : List (String × Json)) (k : String) (v : Json),
    wfPairs acc → wfJ v → wfPairs (objInsert acc k v) := by
  intro acc k v hacc hv
  induction acc with
  | nil => exact ⟨hv, trivial⟩
  | cons p t ih =>
    obtain ⟨k0, v0⟩ := p
    rw [wfPairs] at hacc
    rw [objInsert]
    by_cases he : k0 = k
    · rw [if_pos he]
      exact ⟨hv, hacc.2⟩
    · rw [if_neg he]
      exact ⟨hacc.1, ih hacc.2⟩

theorem objInsert_mem_keys : ∀ (acc : List (String × Json)) (k : String) (v : Json),
    k ∈ acc.map Prod.fst → (objInsert acc k v).map Prod.fst = acc.map Prod.fst := by
  intro acc k v hk
  induction acc with
  | nil => simp at hk
  | cons p t ih =>
    obtain ⟨k0, v0⟩ := p
    rw [objInsert]
    by_cases he : k0 = k
    · rw [if_pos he]
      simp
    · rw [if_neg he]
      simp only [List.map_cons, List.mem_cons] at hk ⊢
      rcases hk with hk | hk
      · exact absurd hk.symm he
      · rw [ih hk]

theorem nodup_objInsert : ∀ (acc : List (String × Json)) (k : String) (v : Json),
    (acc.map Prod.fst).Nodup → ((objInsert acc k v).map Prod.fst).Nodup := by
  intro acc k v hnd
  by_cases hk : k ∈ acc.map Prod.fst
  · rw [objInsert_mem_keys acc k v hk]
    exact hnd
  · rw [objInsert_not_mem acc k v hk, List.map_append]
    simp only [List.map_cons, List.map_nil]
    rw [List.nodup_append]
    exact ⟨hnd, List.nodup_singleton k, by
      intro a ha hb
      simp at hb
      subst hb
      exact hk ha⟩

theorem wf_main : ∀ fuel : Nat,
    (∀ input v r, pVal fuel input = .ok (v, r) → wfJ v) ∧
    (∀ acc input v r, wfList acc → pArrRest fuel acc input = .ok (v, r) → wfJ v) ∧
    (∀ acc input v r, wfPairs acc → (acc.map Prod.fst).Nodup →
      pObjRest fuel acc input = .ok (v, r) → wfJ v) ∧
    (∀ acc input v r, wfPairs acc → (acc.map Prod.fst).Nodup →
      pObjPair fuel acc input = .ok (v, r) → wfJ v) := by
  intro fuel
  induction fuel using Nat.strong_induction_on with
  | _ fuel ih =>
  cases fuel with
  | zero =>
    refine ⟨?_, ?_, ?_, ?_⟩
    · intro input v r h; simp [pVal] at h
    · intro acc input v r _ h; simp [pArrRest] at h
    · intro acc input v r _ _ h; simp [pObjRest] at h
    · intro acc input v r hwa hnd h
      rw [pObjPair] at h
      rcases hps : pStrBody (input.length + 1) input with m | ⟨kcs, r3⟩ <;> rw [hps] at h
      · simp at h
      · simp only [] at h
        rcases hsk : skipWs r3 with _ | ⟨c4, r4⟩ <;> rw [hsk] at h
        · simp at h
        · simp only [] at h
          split_ifs at h with hc
          rw [show pVal 0 r4 = Except.error "fuel exhausted" from by simp [pVal]] at h
          simp at h
  | succ f =>
    have ihV := (ih f (Nat.lt_succ_self f)).1
    have ihA := (ih f (Nat.lt_succ_self f)).2.1
    have ihP := (ih f (Nat.lt_succ_self f)).2.2.2
    have hA : ∀ acc input v r, wfList acc → pArrRest (f + 1) acc input = .ok (v, r) →
        wfJ v := by
      intro acc input v r hacc h
      rw [pArrRest] at h
      rcases hsk : skipWs input with _ | ⟨c, restl⟩
      · rw [hsk] at h; simp [pArrRestCore] at h
      · rw [hsk, pArrRestCore] at h
        split_ifs at h with h1 h2
        · simp only [Except.ok.injEq, Prod.mk.injEq] at h
          rw [← h.1, wfJ]
          exact hacc
        · rcases hp : pVal f restl with m | ⟨v0, r2⟩ <;> rw [hp] at h
          · simp at h
          · simp only [] at h
            exact ihA (acc ++ [v0]) r2 v r (wfList_snoc acc v0 hacc (ihV _ _ _ hp)) h
    have hO : ∀ acc input v r, wfPairs acc → (acc.map Prod.fst).Nodup →
        pObjRest (f + 1) acc input = .ok (v, r) → wfJ v := by
      intro acc input v r hwa hnd h
      rw [pObjRest] at h
      rcases hsk : skipWs input with _ | ⟨c, restl⟩
      · rw [hsk] at h; simp [pObjRestCore] at h
      · rw [hsk, pObjRestCore] at h
        split_ifs at h with h1 h2
        · simp only [Except.ok.injEq, Prod.mk.injEq] at h
          rw [← h.1, wfJ]
          exact ⟨hnd, hwa⟩
        · rcases hsk2 : skipWs restl with _ | ⟨c2, r2⟩ <;> rw [hsk2] at h
          · simp at h
          · simp only [] at h
            split_ifs at h with h3
            exact ihP acc r2 v r hwa hnd h
    have hV : ∀ input v r, pVal (f + 1) input = .ok (v, r) → wfJ v := by
      intro input v r h
      rw [pVal] at h
      rcases hsk : skipWs input with _ | ⟨c, restl⟩
      · rw [hsk] at h; simp [pValCore] at h
      · rw [hsk, pValCore] at h
        split_ifs at h with h1 h2 h3 h4 h5 h6 h7 h8
        · rw [pNullLit_shape h, wfJ]; trivial
        · rw [pTrueLit_shape h, wfJ]; trivial
        · rw [pFalseLit_shape h, wfJ]; trivial
        · obtain ⟨s, hs⟩ := pStrVal_shape h
          rw [hs, wfJ]; trivial
        · obtain ⟨n2, hn2⟩ := pNegNum_shape h
          rw [hn2, wfJ]; trivial
        · obtain ⟨n2, hn2⟩ := pPosNum_shape h
          rw [hn2, wfJ]; trivial
        · rw [pArrStart] at h
          rcases hsk2 : skipWs restl with _ | ⟨c2, r2⟩ <;> rw [hsk2] at h
          · simp at h
          · simp only [] at h
            split_ifs at h with h9
            · simp only [Except.ok.injEq, Prod.mk.injEq] at h
              rw [← h.1, wfJ, wfList]; trivial
            · rcases hp : pVal f (c2 :: r2) with m | ⟨v0, r3⟩ <;> rw [hp] at h
              · simp at h
              · simp only [] at h
                exact ihA [v0] r3 v r ⟨ihV _ _ _ hp, trivial⟩ h
        · rw [pObjStart] at h
          rcases hsk2 : skipWs restl with _ | ⟨c2, r2⟩ <;> rw [hsk2] at h
          · simp at h
          · simp only [] at h
            split_ifs at h with h9 h10
            · simp only [Except.ok.injEq, Prod.mk.injEq] at h
              rw [← h.1, wfJ]
              exact ⟨by simp, trivial⟩
            · exact ihP [] r2 v r trivial (by simp) h
    have hP : ∀ acc input v r, wfPairs acc → (acc.map Prod.fst).Nodup →
        pObjPair (f + 1) acc input = .ok (v, r) → wfJ v := by
      intro acc input v r hwa hnd h
      rw [pObjPair] at h
      rcases hps : pStrBody (input.length + 1) input with m | ⟨kcs, r3⟩ <;> rw [hps] at h
      · simp at h
      · simp only [] at h
        rcases hsk : skipWs r3 with _ | ⟨c4, r4⟩ <;> rw [hsk] at h
        · simp at h
        · simp only [] at h
          split_ifs at h with hc
          · rcases hp : pVal (f + 1) r4 with m | ⟨v0, r5⟩ <;> rw [hp] at h
            · simp at h
            · simp only [] at h
              exact hO (objInsert acc ⟨kcs⟩ v0) r5 v r
                (wfPairs_objInsert _ _ _ hwa (hV _ _ _ hp))
                (nodup_objInsert _ _ _ hnd) h
    exact ⟨hV, hA, hO, hP⟩

/-! ### Fuel bound: the scanner fuel from the input length always suffices -/

theorem listFuel_le_encItems (lvl : Nat) (xs : List Json)
    (h : ∀ x ∈ xs, ∀ l2, jsonFuel x ≤ (enc l2 x).length) :
    listFuel xs ≤ (encItems lvl xs).length := by
  induction xs with
  | nil => simp [listFuel, encItems]
  | cons x t ih =>
    rw [listFuel, encItems]
    have h1 := h x (by simp) lvl
    have h2 := ih (fun y hy l2 => h y (by simp [hy]) l2)
    simp only [List.length_cons, List.length_append]
    omega

theorem pairsFuel_le_encPairs (lvl : Nat) (kvs : List (String × Json))
    (h : ∀ kv ∈ kvs, ∀ l2, jsonFuel kv.2 ≤ (enc l2 kv.2).length) :
    pairsFuel kvs ≤ (encPairs lvl kvs).length := by
  induction kvs with
  | nil => simp [pairsFuel, encPairs]
  | cons kv t ih =>
    obtain ⟨k, v⟩ := kv
    rw [pairsFuel, encPairs]
    have h1 : jsonFuel v ≤ (enc lvl v).length := h (k, v) (by simp) lvl
    have h2 := ih (fun y hy l2 => h y (by simp [hy]) l2)
    simp only [List.length_cons, List.length_append]
    omega

theorem jsonFuel_le_enc : ∀ (v : Json) (lvl : Nat), jsonFuel v ≤ (enc lvl v).length := by
  have main : ∀ (N : Nat) (v : Json), sizeOf v ≤ N → ∀ lvl,
      jsonFuel v ≤ (enc lvl v).length := by
    intro N
    induction N with
    | zero =>
      intro v hv
      exfalso
      cases v <;> simp at hv
    | succ N ihN =>
      intro v hv lvl
      cases v with
      | null => simp [jsonFuel, enc, nullChars]
      | bool b => cases b <;> simp [jsonFuel, enc, trueChars, falseChars]
      | int n =>
        obtain ⟨c, t, hc, _, _, _⟩ := intChars_shape n
        simp [jsonFuel, enc, hc]
      | str s => simp [jsonFuel, enc]
      | arr xs =>
        cases xs with
        | nil => simp [jsonFuel, listFuel, enc]
        | cons x t =>
          simp only [Json.arr.sizeOf_spec, List.cons.sizeOf_spec] at hv
          have helems : ∀ y ∈ x :: t, ∀ l2, jsonFuel y ≤ (enc l2 y).length := by
            intro y hy l2
            apply ihN
            have h1 := List.sizeOf_lt_of_mem hy
            simp only [List.cons.sizeOf_spec] at h1
            omega
          have hx := helems x (by simp) (lvl + 1)
          have ht := listFuel_le_encItems (lvl + 1) t
            (fun y hy l2 => helems y (by simp [hy]) l2)
          rw [jsonFuel, listFuel]
          simp only [enc, List.length_cons, List.length_append]
          omega
      | obj kvs =>
        cases kvs with
        | nil => simp [jsonFuel, pairsFuel, enc]
        | cons kv t =>
          obtain ⟨k, v⟩ := kv
          simp only [Json.obj.sizeOf_spec, List.cons.sizeOf_spec, Prod.mk.sizeOf_spec] at hv
          have helems : ∀ y ∈ (k, v) :: t, ∀ l2, jsonFuel y.2 ≤ (enc l2 y.2).length := by
            intro y hy l2
            obtain ⟨k2, v2⟩ := y
            have h1 := List.sizeOf_lt_of_mem hy
            simp only [List.cons.sizeOf_spec, Prod.mk.sizeOf_spec] at h1
            show jsonFuel v2 ≤ (enc l2 v2).length
            apply ihN
            omega
          have hx : jsonFuel v ≤ (enc (lvl + 1) v).length := helems (k, v) (by simp) (lvl + 1)
          have ht := pairsFuel_le_encPairs (lvl + 1) t
            (fun y hy l2 => helems y (by simp [hy]) l2)
          rw [jsonFuel, pairsFuel]
          simp only [enc, List.length_cons, List.length_append]
          omega
  exact fun v lvl => main (sizeOf v) v (Nat.le_refl _) lvl

/-! ### The serialisation round trip and parser invariant at the `json` module API -/

theorem loads_dumps (v : Json) (h : wfJ v) : pyJsonLoads (pyJsonDumps v) = .ok v := by
  rw [pyJsonLoads, pyJsonDumps]
  have hdata : (⟨enc 0 v⟩ : String).data = enc 0 v := rfl
  rw [hdata]
  have hrt := (rt_main ((enc 0 v).length + 1)).1 v 0 [] h
    (by have := jsonFuel_le_enc v 0; omega) (by simp [numStopB])
  rw [List.append_nil] at hrt
  rw [hrt]
  simp [skipWs]

theorem loads_wf {s : String} {v : Json} (h : pyJsonLoads s = .ok v) : wfJ v := by
  rw [pyJsonLoads] at h
  rcases hp : pVal (s.data.length + 1) s.data with m | ⟨v0, rest⟩ <;> rw [hp] at h
  · simp at h
  · simp only [] at h
    split_ifs at h with hc
    simp only [Except.ok.injEq] at h
    subst h
    exact (wf_main _).1 _ _ _ hp

theorem jsonBranch_of_loads {content : String} {v : Json}
    (h : pyJsonLoads content = .ok v) : jsonBranch content = pyJsonDumps v := by
  rw [jsonBranch, h]

/-! ### Branch lemmas for the loader -/

theorem load_read_error (fs : String → Except String String) (path m : String)
    (h : fs path = .error m) :
    load_file_content fs path = "Error reading file: " ++ m := by
  rw [load_file_content, h]

theorem load_json (fs : String → Except String String) (path content : String)
    (hread : fs path = .ok content)
    (hext : pyEndswith (pyLower path) ".json" = true) :
    load_file_content fs path = jsonBranch content := by
  rw [load_file_content, hread]
  simp only [hext, if_true]

theorem load_xml (fs : String → Except String String) (path content : String)
    (hread : fs path = .ok content)
    (hext : pyEndswith (pyLower path) ".xml" = true) :
    load_file_content fs path = xmlBranch content := by
  rw [load_file_content, hread]
  simp only [xml_suffix_not_json hext, hext, if_true, Bool.false_eq_true, if_false]

theorem load_other (fs : String → Except String String) (path content : String)
    (hread : fs path = .ok content)
    (hj : pyEndswith (pyLower path) ".json" = false)
    (hx : pyEndswith (pyLower path) ".xml" = false) :
    load_file_content fs path = "Error: Unsupported file format for " ++ path := by
  rw [load_file_content, hread]
  simp only [hj, hx, Bool.false_eq_true, if_false]

/-! ### The claims -/

/-- C1 (counterexample): the claim "regardless of whether the file exists or is
readable" fails: in the source, `open`/`read` happen before the extension
dispatch, so an unreadable `.txt` file yields `"Error reading file: ..."`, not
the unsupported-format string. -/
theorem c1_counterexample :
    (pyEndswith (pyLower "report.txt") ".json" = false ∧
     pyEndswith (pyLower "report.txt") ".xml" = false) ∧
    load_file_content
      (fun _ => .error "[Errno 2] No such file or directory: 'report.txt'") "report.txt" ≠
      "Error: Unsupported file format for report.txt" := by
  refine ⟨⟨by decide, by decide⟩, ?_⟩
  rw [load_read_error (fun _ => .error "[Errno 2] No such file or directory: 'report.txt'")
    "report.txt" "[Errno 2] No such file or directory: 'report.txt'" rfl]
  decide

/-- C1 (amended): for every file path whose extension (case-insensitive) is
neither `.json` nor `.xml` and whose file read succeeds, `load_file_content`
returns exactly the string `"Error: Unsupported file format for {path}"`. -/
theorem c1_unsupported_format (fs : String → Except String String) (path content : String)
    (hread : fs path = .ok content)
    (hj : pyEndswith (pyLower path) ".json" = false)
    (hx : pyEndswith (pyLower path) ".xml" = false) :
    load_file_content fs path = "Error: Unsupported file format for " ++ path :=
  load_other fs path content hread hj hx

theorem c1_witness :
    load_file_content (fun _ => .ok "hello") "report.txt" =
      "Error: Unsupported file format for " ++ "report.txt" :=
  c1_unsupported_format (fun _ => .ok "hello") "report.txt" "hello" rfl
    (by decide) (by decide)

/-- C2: if the loader's result starts with `"Error"`, `classify_bug_report`
returns the mapping with exactly the one key `error` bound to that string, and
the remote model is not invoked (and the missing-credential warning is not even
reached). -/
theorem c2_error_short_circuit (fs : String → Except String String)
    (remote : String → String → Except String BugClassification)
    (envHasKey : Bool) (path : String)
    (h : pyStartswith (load_file_content fs path) "Error" = true) :
    classify_bug_report fs remote envHasKey path =
      ⟨.ok [("error", .str (load_file_content fs path))], false, false⟩ := by
  rw [classify_bug_report]
  simp only [h, if_true]

theorem c2_witness :
    pyStartswith (load_file_content (fun _ => .ok "x") "a.txt") "Error" = true ∧
    classify_bug_report (fun _ => .ok "x") (fun _ _ => .error "no network") true "a.txt" =
      ⟨.ok [("error", .str (load_file_content (fun _ => .ok "x") "a.txt"))], false, false⟩ :=
  ⟨by decide, c2_error_short_circuit _ _ _ _ (by decide)⟩

/-- C3: for a `.json` file whose content parses as well-formed JSON, parsing the
loader's output yields a value equal to the value parsed from the original
content (parse/serialise/parse round trip; equality of model values implies
Python's deep equality). -/
theorem c3_json_roundtrip (fs : String → Except String String)
    (path content : String) (v : Json)
    (hread : fs path = .ok content)
    (hext : pyEndswith (pyLower path) ".json" = true)
    (hparse : pyJsonLoads content = .ok v) :
    pyJsonLoads (load_file_content fs path) = .ok v := by
  rw [load_json fs path content hread hext, jsonBranch_of_loads hparse]
  exact loads_dumps v (loads_wf hparse)

theorem c3_witness :
    pyJsonLoads "[1, 2]" = .ok (.arr [.int 1, .int 2]) ∧
    pyEndswith (pyLower "data.json") ".json" = true ∧
    pyJsonLoads (load_file_content (fun _ => .ok "[1, 2]") "data.json") =
      .ok (.arr [.int 1, .int 2]) :=
  ⟨by
    simp +decide [pyJsonLoads, pVal, pValCore, pArrStart, pArrRest, pArrRestCore, skipWs,
      jsonWs, isDig, pNum, pDigits, numFloatCheck, pPosNum],
   by decide,
    c3_json_roundtrip (fun _ => .ok "[1, 2]") "data.json" "[1, 2]"
      (.arr [.int 1, .int 2]) rfl (by decide)
      (by
        simp +decide [pyJsonLoads, pVal, pValCore, pArrStart, pArrRest, pArrRestCore,
          skipWs, jsonWs, isDig, pNum, pDigits, numFloatCheck, pPosNum])⟩

/-- C4: for a `.xml` file containing a well-formed XML document, the loader
returns the newline-join, in depth-first document order over all elements
including the root, of one line `"{Capitalized tag}: {trimmed text}"` per
element with non-empty trimmed text; empty-text elements contribute no line. -/
theorem c4_xml_flatten (fs : String → Except String String)
    (path content : String) (t : XmlElem)
    (hread : fs path = .ok content)
    (hext : pyEndswith (pyLower path) ".xml" = true)
    (hparse : pyXmlFromstring content = .ok t) :
    load_file_content fs path = String.intercalate "\n"
      ((xmlIter t).filterMap fun e =>
        if pyStrip e.text ≠ "" then some (pyCapitalize e.tag ++ ": " ++ pyStrip e.text)
        else none) := by
  rw [load_xml fs path content hread hext, xmlBranch, hparse]
  rfl

theorem c4_witness :
    pyXmlFromstring "<a>hi<b> x </b><c/></a>" =
      .ok (.node "a" "hi" [.node "b" " x " [], .node "c" "" []]) ∧
    load_file_content (fun _ => .ok "<a>hi<b> x </b><c/></a>") "a.xml" = "A: hi\nB: x" ∧
    load_file_content (fun _ => .ok "<a>hi<b> x </b><c/></a>") "a.xml" =
      String.intercalate "\n"
        ((xmlIter (.node "a" "hi" [.node "b" " x " [], .node "c" "" []])).filterMap fun e =>
          if pyStrip e.text ≠ "" then some (pyCapitalize e.tag ++ ": " ++ pyStrip e.text)
          else none) :=
  ⟨by rfl, by rfl,
    c4_xml_flatten (fun _ => .ok "<a>hi<b> x </b><c/></a>") "a.xml"
      "<a>hi<b> x </b><c/></a>" (.node "a" "hi" [.node "b" " x " [], .node "c" "" []])
      rfl (by decide) (by rfl)⟩

/-- C5: whenever `classify_bug_report` returns a mapping (rather than letting a
remote exception propagate), the mapping has exactly one of two shapes — the
four schema keys, or the single `error` key with a string value — and the two
shapes are mutually exclusive. -/
theorem c5_result_shapes (fs : String → Except String String)
    (remote : String → String → Except String BugClassification)
    (envHasKey : Bool) (path : String) (m : List (String × Json))
    (h : (classify_bug_report fs remote envHasKey path).result = .ok m) :
    (errorShape m ∧ ¬ successShape m) ∨ (successShape m ∧ ¬ errorShape m) := by
  rw [classify_bug_report] at h
  by_cases hc : pyStartswith (load_file_content fs path) "Error" = true
  · simp only [hc, if_true] at h
    simp only [Except.ok.injEq] at h
    subst h
    left
    constructor
    · exact ⟨load_file_content fs path, rfl⟩
    · intro hs
      rw [successShape] at hs
      simp at hs
  · simp only [hc, if_false, Bool.false_eq_true] at h
    rcases hr : remote systemMessage (humanMessage (load_file_content fs path)) with
      e | r <;> rw [hr] at h
    · simp at h
    · simp only [Except.ok.injEq] at h
      subst h
      right
      constructor
      · rw [successShape, bcDict]
        rfl
      · rintro ⟨sv, hs⟩
        rw [bcDict] at hs
        simp at hs

theorem c5_witness :
    (classify_bug_report (fun _ => .ok "x") (fun _ _ => .error "boom") true "a.txt").result =
      .ok [("error", Json.str "Error: Unsupported file format for a.txt")] ∧
    ((errorShape [("error", Json.str "Error: Unsupported file format for a.txt")] ∧
      ¬ successShape [("error", Json.str "Error: Unsupported file format for a.txt")]) ∨
     (successShape [("error", Json.str "Error: Unsupported file format for a.txt")] ∧
      ¬ errorShape [("error", Json.str "Error: Unsupported file format for a.txt")])) :=
  ⟨by rfl, c5_result_shapes (fun _ => .ok "x") (fun _ _ => .error "boom") true "a.txt"
    [("error", Json.str "Error: Unsupported file format for a.txt")] (by rfl)⟩

/-- C6: the loader never lets a failure escape: a failed read, a JSON parse
failure on a `.json` path, an XML parse failure on a `.xml` path, and an
unsupported extension each produce the documented error string (the read/parse
failures as `"Error reading file: {message}"`), always starting with `"Error"`;
in the embedding `load_file_content` is a total function into strings, so no
exception reaches the caller. -/
theorem c6_loader_never_raises (fs : String → Except String String) (path : String) :
    (∀ m, fs path = .error m →
      load_file_content fs path = "Error reading file: " ++ m ∧
      pyStartswith (load_file_content fs path) "Error" = true) ∧
    (∀ content e, fs path = .ok content → pyEndswith (pyLower path) ".json" = true →
      pyJsonLoads content = .error e →
      load_file_content fs path = "Error reading file: " ++ e ∧
      pyStartswith (load_file_content fs path) "Error" = true) ∧
    (∀ content e, fs path = .ok content → pyEndswith (pyLower path) ".xml" = true →
      pyXmlFromstring content = .error e →
      load_file_content fs path = "Error reading file: " ++ e ∧
      pyStartswith (load_file_content fs path) "Error" = true) ∧
    (∀ content, fs path = .ok content → pyEndswith (pyLower path) ".json" = false →
      pyEndswith (pyLower path) ".xml" = false →
      load_file_content fs path = "Error: Unsupported file format for " ++ path ∧
      pyStartswith (load_file_content fs path) "Error" = true) := by
  refine ⟨?_, ?_, ?_, ?_⟩
  · intro m h
    have hl := load_read_error fs path m h
    exact ⟨hl, by rw [hl]; exact error_reading_startswith m⟩
  · intro content e hread hext hparse
    have hl : load_file_content fs path = "Error reading file: " ++ e := by
      rw [load_json fs path content hread hext, jsonBranch, hparse]
    exact ⟨hl, by rw [hl]; exact error_reading_startswith e⟩
  · intro content e hread hext hparse
    have hl : load_file_content fs path = "Error reading file: " ++ e := by
      rw [load_xml fs path content hread hext, xmlBranch, hparse]
    exact ⟨hl, by rw [hl]; exact error_reading_startswith e⟩
  · intro content hread hj hx
    have hl := load_other fs path content hread hj hx
    exact ⟨hl, by rw [hl]; exact error_unsupported_startswith path⟩

theorem c6_witness :
    load_file_content (fun _ => .error "boom") "a.json" = "Error reading file: " ++ "boom" ∧
    pyStartswith (load_file_content (fun _ => .error "boom") "a.json") "Error" = true :=
  (c6_loader_never_raises (fun _ => .error "boom") "a.json").1 "boom" rfl

/-- C7: the extension dispatch is a case-insensitive suffix match: a readable
file whose path ends in any casing of `.json` is processed by the JSON branch,
and any casing of `.xml` by the XML branch. -/
theorem c7_case_insensitive_dispatch (fs : String → Except String String)
    (stem ext content : String) (hread : fs (stem ++ ext) = .ok content) :
    (pyLower ext = ".json" → load_file_content fs (stem ++ ext) = jsonBranch content) ∧
    (pyLower ext = ".xml" → load_file_content fs (stem ++ ext) = xmlBranch content) := by
  constructor
  · intro hl
    apply load_json _ _ _ hread
    rw [pyLower_append, hl]
    exact pyEndswith_append _ _
  · intro hl
    apply load_xml _ _ _ hread
    rw [pyLower_append, hl]
    exact pyEndswith_append _ _

theorem c7_witness :
    pyLower ".JSON" = ".json" ∧ pyLower ".Xml" = ".xml" ∧
    load_file_content (fun _ => .ok "[1]") ("bug" ++ ".JSON") = jsonBranch "[1]" ∧
    load_file_content (fun _ => .ok "<a/>") ("bug" ++ ".Xml") = xmlBranch "<a/>" :=
  ⟨by decide, by decide,
    (c7_case_insensitive_dispatch (fun _ => .ok "[1]") "bug" ".JSON" "[1]" rfl).1 (by decide),
    (c7_case_insensitive_dispatch (fun _ => .ok "<a/>") "bug" ".Xml" "<a/>" rfl).2 (by decide)⟩

/-- C8: the loader is deterministic in the file bytes: two runs whose file
reads yield the same outcome on the path produce identical strings (the read is
modelled as a function of the path, so the loader is a pure function of the
read's result). -/
theorem c8_deterministic (fs1 fs2 : String → Except String String) (path : String)
    (h : fs1 path = fs2 path) :
    load_file_content fs1 path = load_file_content fs2 path := by
  rw [load_file_content, load_file_content, h]

theorem c8_witness :
    (fun _ => (.ok "[1]" : Except String String)) "a.json" =
      (fun p => if p = "other" then .error "gone" else .ok "[1]") "a.json" ∧
    load_file_content (fun _ => .ok "[1]") "a.json" =
      load_file_content (fun p => if p = "other" then .error "gone" else .ok "[1]") "a.json" :=
  ⟨by rfl,
    c8_deterministic (fun _ => .ok "[1]")
      (fun p => if p = "other" then .error "gone" else .ok "[1]") "a.json" (by rfl)⟩

/-- C9: a readable, well-formed XML file can produce loaded content that starts
with `"Error"` — `<error>boom</error>` flattens to `"Error: boom"` — and then
`classify_bug_report` returns an `error` mapping without any remote call, even
though loading succeeded. -/
theorem c9_error_tag_conflation :
    ∀ (remote : String → String → Except String BugClassification) (envHasKey : Bool),
    pyXmlFromstring "<error>boom</error>" = .ok (.node "error" "boom" []) ∧
    load_file_content (fun _ => .ok "<error>boom</error>") "report.xml" = "Error: boom" ∧
    pyStartswith "Error: boom" "Error" = true ∧
    classify_bug_report (fun _ => .ok "<error>boom</error>") remote envHasKey "report.xml" =
      ⟨.ok [("error", Json.str "Error: boom")], false, false⟩ := by
  intro remote envHasKey
  exact ⟨by rfl, by rfl, by decide, by rfl⟩

/-- C10: a well-formed `.xml` file in which no element has non-empty trimmed
text loads as the empty string, which does not start with `"Error"`, so
`classify_bug_report` does not short-circuit and proceeds to the remote call. -/
theorem c10_empty_xml_no_short_circuit (fs : String → Except String String)
    (remote : String → String → Except String BugClassification)
    (envHasKey : Bool) (path content : String) (t : XmlElem)
    (hread : fs path = .ok content)
    (hext : pyEndswith (pyLower path) ".xml" = true)
    (hparse : pyXmlFromstring content = .ok t)
    (hempty : ∀ e ∈ xmlIter t, pyStrip e.text = "") :
    load_file_content fs path = "" ∧
    pyStartswith "" "Error" = false ∧
    (classify_bug_report fs remote envHasKey path).remoteCalled = true := by
  have hload : load_file_content fs path = "" := by
    have hlines : xmlLines t = [] := by
      rw [xmlLines, List.filterMap_eq_nil_iff]
      intro e he
      simp [hempty e he]
    rw [load_xml fs path content hread hext, xmlBranch, hparse]
    simp only []
    rw [hlines]
    rfl
  refine ⟨hload, by decide, ?_⟩
  rw [classify_bug_report]
  simp only [hload]
  rcases hr : remote systemMessage (humanMessage "") with e | r <;>
    simp [hr, pyStartswith]

theorem c10_witness :
    pyXmlFromstring "<a><b/></a>" = .ok (.node "a" "" [.node "b" "" []]) ∧
    (∀ e ∈ xmlIter (.node "a" "" [.node "b" "" []]), pyStrip e.text = "") ∧
    (load_file_content (fun _ => .ok "<a><b/></a>") "x.xml" = "" ∧
     pyStartswith "" "Error" = false ∧
     (classify_bug_report (fun _ => .ok "<a><b/></a>") (fun _ _ => .error "net") true
        "x.xml").remoteCalled = true) :=
  ⟨by rfl, by decide,
    c10_empty_xml_no_short_circuit (fun _ => .ok "<a><b/></a>") (fun _ _ => .error "net")
      true "x.xml" "<a><b/></a>" (.node "a" "" [.node "b" "" []]) rfl (by decide) (by rfl)
      (by decide)⟩

end BugClassifier
